import Mathlib

/-!
Verification of the entity normalization and cross-dataset linking pipeline
of the NYC contracting explorer.

The Python sources are shallowly embedded: each Python function relevant to a
claim is translated into an executable Lean definition.  Python strings are
`String` (per-character semantics; `str.upper`/`str.lower` are modelled with
`Char.toUpper`/`Char.toLower`, which agree on ASCII data), optional values are
`Option`, floats are `ℚ` (all money arithmetic here is exact decimal), and the
SQLite tables are lists of row records with the insert semantics dictated by
each table's declared constraints.
-/

namespace NycContracting

/-! ## Character and string helpers -/

/-- The character class `[A-Z0-9]` of the regex in `normalize_contract_id`,
`normalize_epin` and `clean_name` (`build_database.py`). -/
def isUpperAlnum (c : Char) : Bool :=
  ('A' ≤ c && c ≤ 'Z') || ('0' ≤ c && c ≤ '9')

/-- `re.sub(r'[^A-Z0-9]', '', s.upper())`: uppercase every character, then
drop the ones outside `[A-Z0-9]`. -/
def canonClean (s : String) : String :=
  ⟨(s.data.map Char.toUpper).filter isUpperAlnum⟩

/-- Python `a.startswith(b)` / list-level prefix test. -/
def startsL : List Char → List Char → Bool
  | [], _ => true
  | _ :: _, [] => false
  | a :: as, b :: bs => a == b && startsL as bs

/-- Python substring containment `a in b` (contiguous substring; the empty
string is contained in everything). -/
def containsL (needle : List Char) : List Char → Bool
  | [] => startsL needle []
  | c :: t => startsL needle (c :: t) || containsL needle t

/-- Python `s.strip()` with no argument: drop leading and trailing
whitespace. -/
def stripL (cs : List Char) : List Char :=
  ((cs.dropWhile Char.isWhitespace).reverse.dropWhile Char.isWhitespace).reverse

/-! ## Canonicalizer (`build_database.py`) -/

/-- `normalize_contract_id(cid)`: `None`/empty input gives `None`, otherwise
uppercase and strip every character outside `[A-Z0-9]`. -/
def normalize_contract_id (cid : Option String) : Option String :=
  match cid with
  | none => none
  | some s => if s = "" then none else some (canonClean s)

/-- `normalize_epin(epin)` — same body as `normalize_contract_id`. -/
def normalize_epin (epin : Option String) : Option String :=
  match epin with
  | none => none
  | some s => if s = "" then none else some (canonClean s)

/-- `clean_name(name)`: `None`/empty input gives `""` (not `None`!),
otherwise uppercase and strip every character outside `[A-Z0-9]`. -/
def clean_name (name : Option String) : String :=
  match name with
  | none => ""
  | some s => if s = "" then "" else canonClean s

/-- Value of a digit list read in base 10 (`int`-style accumulation). -/
def digitsVal (ds : List Char) : ℕ :=
  ds.foldl (fun a c => 10 * a + (c.toNat - 48)) 0

/-- Python `float(cs)` restricted to strings made of digits and dots, which is
all `clean_money` can pass it: it succeeds exactly when there is at most one
dot and at least one digit, and yields integer-part plus fractional-part.
(`"1.2.3"`, `"."` and `""` raise `ValueError`; `"1."`, `".5"` parse.) -/
def pyFloatOfDigitsDots (cs : List Char) : Option ℚ :=
  if cs.count '.' ≥ 2 then none
  else
    let ip := cs.takeWhile (fun c => c ≠ '.')
    let fp := (cs.dropWhile (fun c => c ≠ '.')).drop 1
    if ip = [] ∧ fp = [] then none
    else some ((digitsVal ip : ℚ) + (digitsVal fp : ℚ) / (10 : ℚ) ^ fp.length)

/-- The character class `[0-9.]` of the regex in `clean_money`. -/
def isDigitOrDot (c : Char) : Bool :=
  ('0' ≤ c && c ≤ '9') || c == '.'

/-- `clean_money(val)`: `None`/empty gives `0.0`; otherwise strip every
character outside `[0-9.]`; empty result or parse failure gives `0.0`. -/
def clean_money (val : Option String) : ℚ :=
  match val with
  | none => 0
  | some s =>
    if s = "" then 0
    else
      let cleaned := s.data.filter isDigitOrDot
      if cleaned = [] then 0
      else
        match pyFloatOfDigitsDots cleaned with
        | some q => q
        | none => 0

/-! ## SQLite insert semantics

`vendors` and `solicitations` declare a `TEXT PRIMARY KEY`; `contracts`,
`mocs_entities` and `mocs_people` declare no primary key or unique
constraint.  SQLite's `INSERT OR IGNORE` drops a row only when it would
violate a uniqueness constraint, and a non-`INTEGER` primary key admits
`NULL` values, every `NULL` distinct from every other. -/

/-- `INSERT OR IGNORE` of one row into a table with a nullable `TEXT PRIMARY
KEY`: ignored exactly when the key is non-`NULL` and already present. -/
def insertOrIgnorePK {α : Type} (key : α → Option String) (t : List α) (x : α) :
    List α :=
  match key x with
  | none => t ++ [x]
  | some k => if t.any (fun r => key r = some k) then t else t ++ [x]

/-- `cursor.executemany("INSERT OR IGNORE ...")` over a batch. -/
def insertManyOrIgnorePK {α : Type} (key : α → Option String) (t : List α)
    (xs : List α) : List α :=
  xs.foldl (insertOrIgnorePK key) t

/-! ## Bulk Loader (`build_database.py`) -/

/-- A row of the `vendors` table, as built by `load_vendors` from the CSV
extract (PK `passport_supplier_id`). -/
structure VendorRow where
  passport_supplier_id : Option String
  name : Option String
  fms_vendor_code : Option String
  duns_number : Option String
  certification_type : Option String
  ethnicity : Option String
  business_category : Option String
  corporate_structure : Option String
deriving DecidableEq, Repr

/-- `load_vendors`: batch `INSERT OR IGNORE` into `vendors` (PK
`passport_supplier_id`). -/
def load_vendors (t : List VendorRow) (rows : List VendorRow) : List VendorRow :=
  insertManyOrIgnorePK (fun r => r.passport_supplier_id) t rows

/-- A row of the `solicitations` table (PK `epin`); `normalized_epin` is
derived by the loader. -/
structure SolicitationRow where
  rfp_id : Option String
  bpm_id : Option String
  program : Option String
  industry : Option String
  epin : Option String
  procurement_name : Option String
  agency : Option String
  agency_id : Option String
  rfx_status : Option String
  release_date : Option String
  due_date : Option String
  main_commodity : Option String
  procurement_method : Option String
  normalized_epin : Option String
deriving DecidableEq, Repr

/-- The canonical-augmentation `load_solicitations` applies to each CSV row
before the batch write: `normalized_epin := normalize_epin(epin)`. -/
def solicitationAugmented (r : SolicitationRow) : SolicitationRow :=
  { r with normalized_epin := normalize_epin r.epin }

/-- `load_solicitations`: augment each row with its canonical EPIN, then batch
`INSERT OR IGNORE` into `solicitations` (PK `epin`). -/
def load_solicitations (t : List SolicitationRow) (rows : List SolicitationRow) :
    List SolicitationRow :=
  insertManyOrIgnorePK (fun r => r.epin) t (rows.map solicitationAugmented)

/-- A row of the `contracts` table.  The table declares NO primary key or
unique constraint (`init_db`, `build_database.py` lines 54-76). -/
structure ContractRow where
  ctr_id : Option String
  epin : Option String
  contract_id : Option String
  contract_title : Option String
  agency : Option String
  agency_id : Option String
  vendor_name : Option String
  program : Option String
  procurement_method : Option String
  contract_type : Option String
  status : Option String
  award_amount : ℚ
  current_amount : ℚ
  start_date : Option String
  end_date : Option String
  industry : Option String
  normalized_contract_id : Option String
  normalized_epin : Option String
deriving DecidableEq, Repr

/-- The canonical-augmentation `load_contracts` applies to each CSV row:
money fields cleaned, canonical contract id and EPIN derived.  `rawAward` and
`rawCurrent` are the raw CSV money strings. -/
def contractAugmented (r : ContractRow) (rawAward rawCurrent : Option String) :
    ContractRow :=
  { r with
    award_amount := clean_money rawAward
    current_amount := clean_money rawCurrent
    normalized_contract_id := normalize_contract_id r.contract_id
    normalized_epin := normalize_epin r.epin }

/-- `load_contracts`: the batch write is `INSERT OR IGNORE INTO contracts`,
but since `contracts` has no uniqueness constraint no row is ever ignored —
the batch is a plain append. -/
def load_contracts (t : List ContractRow) (rows : List ContractRow) :
    List ContractRow :=
  t ++ rows

/-- A row of the `mocs_entities` table; `matched_vendor_id` and `match_score`
are `NULL` until the Entity Matcher runs. -/
structure MocsEntityRow where
  organization_name : Option String
  ownership_structure_code : Option String
  organization_phone : Option String
  start_date : Option String
  normalized_name : String
  matched_vendor_id : Option String
  match_score : Option ℚ
deriving DecidableEq, Repr

/-- Row construction in `load_doing_business`: the tuple
`(name, code, phone, start, clean_name(name))`, with the match columns left
`NULL`. -/
def mocsEntityOfCsv (name code phone start : Option String) : MocsEntityRow :=
  { organization_name := name
    ownership_structure_code := code
    organization_phone := phone
    start_date := start
    normalized_name := clean_name name
    matched_vendor_id := none
    match_score := none }

/-- `load_doing_business` (entities half): a plain `INSERT` — no `OR IGNORE`,
and the table has no unique constraint anyway — so the batch always appends. -/
def load_doing_business_entities (t : List MocsEntityRow)
    (rows : List MocsEntityRow) : List MocsEntityRow :=
  t ++ rows

/-- A row of the `mocs_people` table. -/
structure MocsPersonRow where
  mocs_peopleid : Option String
  organization_name : Option String
  first_name : Option String
  last_name : Option String
  relationship_code : Option String
  normalized_org_name : String
deriving DecidableEq, Repr

/-- `load_doing_business` (people half): likewise a plain `INSERT` append. -/
def load_doing_business_people (t : List MocsPersonRow)
    (rows : List MocsPersonRow) : List MocsPersonRow :=
  t ++ rows

/-! ## Entity Matcher (`match_entities_to_vendors`, `build_database.py`) -/

/-- Dict lookup in an association list (used for `mocs_contract_map`, whose
insertion order matters to the partial-match loop). -/
def assocGet {β : Type} (m : List (String × β)) (k : String) : Option β :=
  (m.find? (fun p => p.1 = k)).map (fun p => p.2)

/-- `vendor_map = {clean_name(v[1]): v[0] for v in vendors}`, modelled as the
dict's lookup function: later comprehension entries overwrite earlier ones,
`none` means the key is absent. -/
def vendor_map (vendors : List VendorRow) : String → Option (Option String) :=
  vendors.foldl
    (fun m v => fun k =>
      if k = clean_name v.name then some v.passport_supplier_id else m k)
    (fun _ => none)

/-- `match_entities_to_vendors`: one pass over all `mocs_entities` rows; a row
whose stored `normalized_name` is a key of the vendor map gets
`(matched_vendor_id, match_score) := (vendor_map[name], 1.0)`; every other row
is left untouched (its match columns stay as they were — `NULL` after a fresh
load). -/
def match_entities_to_vendors (vendors : List VendorRow)
    (rows : List MocsEntityRow) : List MocsEntityRow :=
  let m := vendor_map vendors
  rows.map (fun r =>
    match m r.normalized_name with
    | some vid => { r with matched_vendor_id := vid, match_score := some 1 }
    | none => r)

/-! ## Public-notice (CROL) PIN validation (`import_crol.py`, `load_crol`) -/

/-- The placeholder strings rejected by `load_crol`
(`pin.upper() in ('NOPINFOUND', 'SEE BELOW', ...)`). -/
def crolPlaceholders : List String :=
  ["NOPINFOUND", "SEE BELOW", "LINE 17 BELOW", "SEE LINE 17 BELOW", "LINE 17"]

/-- The PIN validation chain of `load_crol` (`import_crol.py` lines 96-113),
applied to the raw PIN field (defaulted to `""` when absent):
strip whitespace; reject empty; reject length < 8; reject known placeholder
strings (uppercase comparison); reject when removing every `'0'` and every
`'.'` leaves nothing (`pin.replace('0','').replace('.','') == ''`); reject
when the lowercased PIN starts with `"see "` or `"line "`. -/
def crol_valid_pin (rawPin : String) : Bool :=
  let pin := stripL rawPin.data
  if pin = [] then false
  else if pin.length < 8 then false
  else if crolPlaceholders.contains ⟨pin.map Char.toUpper⟩ then false
  else if (pin.filter (fun c => c ≠ '0')).filter (fun c => c ≠ '.') = [] then
    false
  else if startsL "see ".data (pin.map Char.toLower) ||
          startsL "line ".data (pin.map Char.toLower) then false
  else true

/-- A CROL CSV row as far as the validation path is concerned: the `PIN`
field (the remaining 38 pass-through columns do not influence whether the row
is kept). -/
structure CrolCsvRow where
  requestId : Option String
  pin : Option String
deriving DecidableEq, Repr

/-- The row filter of `load_crol` (`import_crol.py`): rows failing PIN
validation are skipped with `continue` before the batch insert, so the batch
handed to `executemany` contains exactly the rows with a valid PIN. -/
def import_crol_kept (rows : List CrolCsvRow) : List CrolCsvRow :=
  rows.filter (fun r => crol_valid_pin (r.pin.getD ""))

/-- `load_crol` of `build_database.py` (lines 545-611): every CSV row is
appended to the batch — this loader performs NO PIN validation of any kind —
and the batch write is `INSERT OR IGNORE` into the `crol` table, whose only
constraint is the `RequestID` primary key (`init_db`, lines 206-248). -/
def build_load_crol (t : List CrolCsvRow) (rows : List CrolCsvRow) :
    List CrolCsvRow :=
  insertManyOrIgnorePK (fun r => r.requestId) t rows

/-- Rewrite a row's PIN field, leaving every other column alone (used to
state that `build_load_crol` is blind to PIN contents). -/
def setPin (g : Option String → Option String) (r : CrolCsvRow) : CrolCsvRow :=
  { r with pin := g r.pin }

/-! ## Contract ⇄ Solicitation resolution (`app.py` `contract_detail`,
`mcp_server.py` `get_contract_details`) -/

/-- `SELECT * FROM solicitations WHERE normalized_epin = ?` with `one=True`:
the first row whose stored canonical EPIN equals the key (`NULL` never
equals). -/
def findSolicitationByNormEpin (sols : List SolicitationRow) (k : String) :
    Option SolicitationRow :=
  sols.find? (fun s => s.normalized_epin = some k)

/-- Solicitation resolution in the web contract-detail view (`app.py` lines
1396-1407): skip when the contract's canonical EPIN is falsy (`None` or
`""`); look up by exact equality; on a miss, when the canonical EPIN is
longer than 10 characters, retry once with its first 10 characters; a second
miss yields `none` (absent link, not an error). -/
def resolve_solicitation_app (sols : List SolicitationRow)
    (nepin : Option String) : Option SolicitationRow :=
  match nepin with
  | none => none
  | some k =>
    if k = "" then none
    else
      match findSolicitationByNormEpin sols k with
      | some s => some s
      | none =>
        if 10 < k.data.length then
          findSolicitationByNormEpin sols ⟨k.data.take 10⟩
        else none

/-- Solicitation resolution in the MCP tool (`mcp_server.py` lines 336-348):
only the exact lookup — no prefix retry of any kind. -/
def resolve_solicitation_mcp (sols : List SolicitationRow)
    (nepin : Option String) : Option SolicitationRow :=
  match nepin with
  | none => none
  | some k =>
    if k = "" then none
    else findSolicitationByNormEpin sols k

/-! ## Fiscal-year partition windows (`app.py` `contract_transactions` and
`contract_checkbook_details`) -/

/-- A date already parsed by `strptime(date_str, '%m/%d/%Y')`; a missing or
unparseable date string is represented as `none` at the use sites. -/
structure PDate where
  month : ℕ
  day : ℕ
  year : ℤ
deriving DecidableEq, Repr

/-- The inner `get_fy` helper: NYC fiscal-year convention — July or later
belongs to the following calendar year's fiscal year. -/
def get_fy : Option PDate → Option ℤ
  | none => none
  | some d => some (if 7 ≤ d.month then d.year + 1 else d.year)

/-- Python `range(s, e + 1)` as a list of years. -/
def fyRange (s e : ℤ) : List ℤ :=
  (List.range (e + 1 - s).toNat).map (fun i => s + i)

/-- The partition window of `contract_transactions` (`app.py` lines
1086-1118).  With a (truthy) start fiscal year: scan from one year before it
through two years after the end fiscal year (or through the current fiscal
year when the end is falsy), capping the upper bound at 2025, the last year
with data.  Otherwise fall back to `range(max_fy - 5, max_fy + 1)` where
`max_fy = min(current_fy, 2025)`.  Python truthiness makes a fiscal year of
`0` falsy. -/
def scan_window_transactions (start_fy end_fy : Option ℤ) (current_fy : ℤ) :
    List ℤ :=
  match start_fy with
  | some sf =>
    if sf = 0 then fyRange (min current_fy 2025 - 5) (min current_fy 2025)
    else
      let s := sf - 1
      let e0 := match end_fy with
        | some ef => if ef = 0 then current_fy else ef + 2
        | none => current_fy
      let e := if e0 > 2025 then 2025 else e0
      fyRange s e
  | none => fyRange (min current_fy 2025 - 5) (min current_fy 2025)

/-- The partition window of `contract_checkbook_details` (`app.py` lines
1452-1486): the same buffered-and-capped window when a start fiscal year is
available, but with no start date the scan covers only the single partition
`fiscal_year=2025`. -/
def scan_window_checkbook (start_fy end_fy : Option ℤ) (current_fy : ℤ) :
    List ℤ :=
  match start_fy with
  | some sf =>
    if sf = 0 then [2025]
    else
      let s := sf - 1
      let e0 := match end_fy with
        | some ef => if ef = 0 then current_fy else ef + 2
        | none => current_fy
      let e := if e0 > 2025 then 2025 else e0
      fyRange s e
  | none => [2025]

/-! ## Transactional Store Merger (`daily_update.py`)

`make_api_request`, `parse_transactions`, `load_progress` and
`save_progress` are imported from `download_nyc_spending`, a module not part
of this source tree.  Modelled from the spec: the remote feed is an oracle
returning either a batch of records or a non-200 failure, and the persisted
watermark is a JSON document with fields `last_record_downloaded`,
`total_records` and `chunks_completed`, read at job start and written at job
end. -/

/-- The persisted per-fiscal-year watermark. -/
structure Progress where
  last_record_downloaded : ℕ
  total_records : ℕ
  chunks_completed : List String
deriving DecidableEq, Repr

/-- Observable side effects of one `daily_update` run, in program order. -/
inductive UpdateEvent where
  | writeCsv
  | writeParquet
  | saveProgress
deriving DecidableEq, Repr

/-- Outcome of one run: the watermark left on disk and the event trace. -/
structure UpdateResult where
  persisted : Progress
  events : List UpdateEvent
deriving DecidableEq, Repr

/-- The batch-download loop of `daily_update` (lines 81-94): fetch batches of
at most 20000 records from `current` through `endR`; any non-200 response
(`none`) aborts the whole loop. -/
def download_batches {τ : Type} (fetch : ℕ → ℕ → Option (List τ))
    (current endR : ℕ) : Option (List τ) :=
  if _h : current ≤ endR then
    let bs := min 20000 (endR - current + 1)
    match fetch current bs with
    | none => none
    | some ts =>
      match download_batches fetch (current + bs) endR with
      | none => none
      | some rest => some (ts ++ rest)
  else some []
termination_by endR + 1 - current
decreasing_by
  omega

/-- One `daily_update` run (`daily_update.py` lines 24-127).  `remoteTotal`
is the record count learned from the header query (`none` = non-200, abort);
`fetch` is the batch oracle; `convertOk` tells whether the DuckDB CSV→Parquet
conversion succeeds (an exception there propagates before the watermark
write).  The watermark is written only at step 7, after the raw CSV (step 5)
and the Parquet conversion (step 6). -/
def daily_update {τ : Type} (progress : Progress) (remoteTotal : Option ℕ)
    (fetch : ℕ → ℕ → Option (List τ)) (chunkName : String) (convertOk : Bool) :
    UpdateResult :=
  match remoteTotal with
  | none => ⟨progress, []⟩
  | some total_records_remote =>
    let last_count := progress.last_record_downloaded
    if total_records_remote ≤ last_count then ⟨progress, []⟩
    else
      match download_batches fetch (last_count + 1) total_records_remote with
      | none => ⟨progress, []⟩
      | some _ =>
        if convertOk then
          ⟨{ last_record_downloaded := total_records_remote
             total_records := total_records_remote
             chunks_completed := progress.chunks_completed ++ [chunkName] },
           [.writeCsv, .writeParquet, .saveProgress]⟩
        else ⟨progress, [.writeCsv]⟩

/-! ## Vendor-view contract merge (`app.py` `vendor_detail`, lines 836-933)

The relational (MOCS) contract list is merged with the distinct contract ids
seen on the Checkbook transaction side.  Each relational dict carries many
more display columns; only the fields the merge logic reads or writes are
modelled. -/

/-- A contract record as the merge sees it (`source` is the provenance
marker: `"MOCS"`, `"MOCS & Checkbook"` or `"Checkbook"`). -/
structure MergeContract where
  ctr_id : Option String
  contract_id : Option String
  start_date : Option String
  source : String
deriving DecidableEq, Repr

/-- `normalize_for_match(cid)` (inner helper of `vendor_detail`): falsy input
gives `""`; otherwise remove hyphens and spaces, then uppercase. -/
def normalize_for_match (cid : Option String) : String :=
  match cid with
  | none => ""
  | some s =>
    if s = "" then ""
    else ⟨(s.data.filter (fun c => !(c == '-' || c == ' '))).map Char.toUpper⟩

/-- Append contract index `i` to the map entry for `nid`, creating the entry
at the end if absent (`mocs_contract_map` construction; Python dict preserves
insertion order). -/
def mocsMapInsert : List (String × List ℕ) → String → ℕ → List (String × List ℕ)
  | [], k, i => [(k, [i])]
  | p :: rest, k, i =>
      if p.1 = k then (p.1, p.2 ++ [i]) :: rest
      else p :: mocsMapInsert rest k i

/-- The construction loop of `mocs_contract_map`, walking the normalized ids
with their contract indices; contracts with a falsy normalized id are left
out (`if nid:`). -/
def buildMocsMapFrom (i : ℕ) (m : List (String × List ℕ)) :
    List String → List (String × List ℕ)
  | [] => m
  | nid :: rest =>
      buildMocsMapFrom (i + 1) (if nid = "" then m else mocsMapInsert m nid i) rest

/-- `mocs_contract_map`: normalized contract id → indices of the relational
contracts bearing it. -/
def buildMocsMap (nids : List String) : List (String × List ℕ) :=
  buildMocsMapFrom 0 [] nids

/-- Set `c_obj['source'] = 'MOCS & Checkbook'` on every contract of a map
entry (`j` is the index of the head of the remaining source list). -/
def upgradeFrom (idxs : List ℕ) : ℕ → List String → List String
  | _, [] => []
  | j, s :: rest =>
      (if j ∈ idxs then "MOCS & Checkbook" else s) :: upgradeFrom idxs (j + 1) rest

/-- The partial-match loop: first map entry (in insertion order) whose key
contains the checkbook id or is contained in it (`nid in m_nid or m_nid in
nid`), stopping at the first hit (`break`). -/
def findContainEntry (m : List (String × List ℕ)) (nid : String) :
    Option (List ℕ) :=
  (m.find? (fun p => containsL nid.data p.1.data || containsL p.1.data nid.data)).map
    (fun p => p.2)

/-- The synthetic Checkbook-only contract record built for an unmatched
checkbook id, its dates and amount taken from the per-contract statistics
query (`statsStart` is the `min(issue_date)` column). -/
def syntheticFor (statsStart : String → Option String) (cb_cid : String) :
    MergeContract :=
  { ctr_id := some cb_cid
    contract_id := some cb_cid
    start_date := statsStart cb_cid
    source := "Checkbook" }

/-- Processing of one distinct checkbook contract id: skip falsy ids; exact
normalized lookup upgrades that entry's contracts; otherwise the first
containment overlap upgrades that entry's contracts; otherwise a synthetic
Checkbook-only record is appended. -/
def checkbookStep (m : List (String × List ℕ)) (statsStart : String → Option String)
    (st : List String × List MergeContract) (cb_cid : String) :
    List String × List MergeContract :=
  if cb_cid = "" then st
  else
    let nid := normalize_for_match (some cb_cid)
    match assocGet m nid with
    | some idxs => (upgradeFrom idxs 0 st.1, st.2)
    | none =>
      match findContainEntry m nid with
      | some idxs => (upgradeFrom idxs 0 st.1, st.2)
      | none => (st.1, st.2 ++ [syntheticFor statsStart cb_cid])

/-- The sort key `str(x.get('start_date') or '0000')` as a code-point
sequence (Python compares strings by code points). -/
def pySortKey (c : MergeContract) : List ℕ :=
  (match c.start_date with
   | none => "0000".data
   | some s => if s = "" then "0000".data else s.data).map Char.toNat

/-- Lexicographic ≤ on code-point sequences (Python string comparison). -/
def lexLeN : List ℕ → List ℕ → Bool
  | [], _ => true
  | _ :: _, [] => false
  | a :: as, b :: bs => if a = b then lexLeN as bs else decide (a < b)

/-- The order produced by `contracts.sort(key=..., reverse=True)`: descending
in the sort key. -/
def mergeLe (a b : MergeContract) : Prop :=
  lexLeN (pySortKey b) (pySortKey a) = true

instance : DecidableRel mergeLe := fun a b =>
  inferInstanceAs (Decidable (lexLeN (pySortKey b) (pySortKey a) = true))

/-- The relational contracts with their provenance marker set to `"MOCS"`
(`c['source'] = 'MOCS'`). -/
def mergeBase (mocs : List MergeContract) : List MergeContract :=
  mocs.map (fun c => { c with source := "MOCS" })

/-- The normalized contract ids of the relational side, in list order. -/
def mergeNids (mocs : List MergeContract) : List String :=
  (mergeBase mocs).map (fun c => normalize_for_match c.contract_id)

/-- `mocs_contract_map` for a vendor's relational contracts. -/
def mergeMap (mocs : List MergeContract) : List (String × List ℕ) :=
  buildMocsMap (mergeNids mocs)

/-- The fold over the distinct checkbook contract ids: provenance markers per
relational contract index, plus the synthetic Checkbook-only records. -/
def mergeFold (mocs : List MergeContract) (cb_ids : List String)
    (statsStart : String → Option String) :
    List String × List MergeContract :=
  cb_ids.foldl (checkbookStep (mergeMap mocs) statsStart)
    ((mergeBase mocs).map (fun c => c.source), [])

/-- The merged list before the final sort: the relational contracts with
their final provenance markers, then the synthetic records. -/
def mergeUnsorted (mocs : List MergeContract) (cb_ids : List String)
    (statsStart : String → Option String) : List MergeContract :=
  ((mergeBase mocs).zip (mergeFold mocs cb_ids statsStart).1).map
    (fun p => { p.1 with source := p.2 }) ++
  (mergeFold mocs cb_ids statsStart).2

/-- The whole merge (`vendor_detail`, `app.py` lines 836-933): tag every
relational contract `"MOCS"`, build the normalized-id map, process each
distinct checkbook id, append the synthetic Checkbook-only records, and
re-sort by start date descending (missing dates replaced by the `'0000'`
sentinel).  Python's `list.sort` is a stable sort of a total preorder key, so
the stable `insertionSort` computes the same list. -/
def vendor_merge_contracts (mocs : List MergeContract) (cb_ids : List String)
    (statsStart : String → Option String) : List MergeContract :=
  List.insertionSort mergeLe (mergeUnsorted mocs cb_ids statsStart)

/-! ## Concrete rows used by the claim theorems -/

/-- The ways one checkbook id can hit a map key: exact normalized equality,
or substring containment either way round. -/
def matchesKey (k y : String) : Prop :=
  normalize_for_match (some y) = k ∨
  (containsL (normalize_for_match (some y)).data k.data ||
   containsL k.data (normalize_for_match (some y)).data) = true

instance (k y : String) : Decidable (matchesKey k y) :=
  inferInstanceAs (Decidable (_ ∨ _))

/-- Map soundness: every entry has a non-empty key, and indexes only
contracts whose normalized id (`f`) is that key. -/
def mapSound (f : ℕ → String) (m : List (String × List ℕ)) : Prop :=
  ∀ p ∈ m, p.1 ≠ "" ∧ ∀ j ∈ p.2, f j = p.1

/-- Map completeness below `n`: every index with a non-empty normalized id
is found by the dict lookup on that id. -/
def mapCompleteUpto (f : ℕ → String) (m : List (String × List ℕ)) (n : ℕ) :
    Prop :=
  ∀ j, j < n → f j ≠ "" → ∃ is, assocGet m (f j) = some is ∧ j ∈ is

/-- The relational contract with normalized id `"CT1001"`. -/
def mergeA : MergeContract :=
  { ctr_id := some "A", contract_id := some "CT1001"
    start_date := some "01/01/2020", source := "MOCS" }

/-- The relational contract with normalized id `"CT100"`. -/
def mergeB : MergeContract :=
  { ctr_id := some "B", contract_id := some "CT100"
    start_date := some "01/01/2019", source := "MOCS" }

/-- A solicitation with canonical EPIN `"ABC123XYZ9"` (10 characters), used
as the store against which the two resolvers are compared. -/
def solAbc : SolicitationRow :=
  { rfp_id := none, bpm_id := none, program := none, industry := none
    epin := some "ABC123XYZ9", procurement_name := none, agency := none
    agency_id := none, rfx_status := none, release_date := none
    due_date := none, main_commodity := none, procurement_method := none
    normalized_epin := some "ABC123XYZ9" }

/-- The vendor used in the C6 theorems: canonical name `"ACMECORP"`. -/
def vendorAcme : VendorRow :=
  { passport_supplier_id := some "V1", name := some "ACME Corp"
    fms_vendor_code := none, duns_number := none, certification_type := none
    ethnicity := none, business_category := none, corporate_structure := none }

/-- A registrant whose canonical name matches no vendor. -/
def mocsZeta : MocsEntityRow := mocsEntityOfCsv (some "Zeta LLC") none none none

/-- A registrant whose canonical name `"ACMECORP"` matches `vendorAcme`. -/
def mocsAcme : MocsEntityRow := mocsEntityOfCsv (some "Acme, Corp.") none none none

/-- The row `mocsAcme` as the matcher emits it: linked with confidence 1. -/
def mocsAcmeLinked : MocsEntityRow :=
  { mocsAcme with
    matched_vendor_id := some "V1"
    match_score := some 1 }

/-- A contracts row with every field empty, used as the duplicate. -/
def contractBlank : ContractRow :=
  { ctr_id := some "CTR1", epin := none, contract_id := some "CT1-001"
    contract_title := none, agency := none, agency_id := none
    vendor_name := none, program := none, procurement_method := none
    contract_type := none, status := none, award_amount := 0
    current_amount := 0, start_date := none, end_date := none
    industry := none, normalized_contract_id := some "CT1001"
    normalized_epin := none }

/-- A one-row vendors extract with its natural key present. -/
def vendorSimple : VendorRow :=
  { passport_supplier_id := some "V9", name := some "Nine", fms_vendor_code := none
    duns_number := none, certification_type := none, ethnicity := none
    business_category := none, corporate_structure := none }

/-- A one-row solicitations extract with its natural key present. -/
def solSimple : SolicitationRow :=
  { rfp_id := none, bpm_id := none, program := none, industry := none
    epin := some "85826Y1251", procurement_name := none, agency := none
    agency_id := none, rfx_status := none, release_date := none
    due_date := none, main_commodity := none, procurement_method := none
    normalized_epin := none }

/-! ## Claim C5 -/

/-- Lexicographic ≤ on code-point sequences is total. -/
lemma lexLeN_total : ∀ x y : List ℕ, lexLeN x y = true ∨ lexLeN y x = true := by
  intro x
  induction x with
  | nil => intro y; left; rfl
  | cons a as ih =>
    intro y
    cases y with
    | nil => right; rfl
    | cons b bs =>
      by_cases hab : a = b
      · subst hab
        rcases ih bs with h | h
        · left; simpa [lexLeN] using h
        · right; simpa [lexLeN] using h
      · rcases Nat.lt_or_ge a b with hlt | hge
        · left; simp [lexLeN, hab, hlt]
        · have hba : ¬ b = a := fun h => hab h.symm
          have hblt : b < a := lt_of_le_of_ne hge hba
          right; simp [lexLeN, hba, hblt]

/-- Lexicographic ≤ on code-point sequences is transitive. -/
lemma lexLeN_trans : ∀ x y z : List ℕ,
    lexLeN x y = true → lexLeN y z = true → lexLeN x z = true := by
  intro x
  induction x with
  | nil => intro y z _ _; rfl
  | cons a as ih =>
    intro y z hxy hyz
    cases y with
    | nil => exact absurd hxy (by simp [lexLeN])
    | cons b bs =>
      cases z with
      | nil => exact absurd hyz (by simp [lexLeN])
      | cons c cs =>
        by_cases hab : a = b <;> by_cases hbc : b = c
        · subst hab; subst hbc
          simp only [lexLeN, if_pos rfl] at hxy hyz ⊢
          exact ih bs cs hxy hyz
        · subst hab
          simp only [lexLeN, if_pos rfl] at hxy
          simp only [lexLeN, if_neg hbc] at hyz
          have hlt : a < c := of_decide_eq_true hyz
          simp [lexLeN, Nat.ne_of_lt hlt, hlt]
        · subst hbc
          simp only [lexLeN, if_neg hab] at hxy
          have hlt : a < b := of_decide_eq_true hxy
          simp [lexLeN, Nat.ne_of_lt hlt, hlt]
        · simp only [lexLeN, if_neg hab] at hxy
          simp only [lexLeN, if_neg hbc] at hyz
          have h1 : a < b := of_decide_eq_true hxy
          have h2 : b < c := of_decide_eq_true hyz
          have hlt : a < c := h1.trans h2
          simp [lexLeN, Nat.ne_of_lt hlt, hlt]

/-- C5 counterexample: with relational contracts `"CT1001"` and `"CT100"` and
the single transaction-side id `"CT1001"`, the id `"CT100"` is contained in
`"CT1001"`, yet only the exactly-equal contract is upgraded — the containment
loop is never reached when an exact match exists, so `mergeB` keeps the
first-source-only marker in the merged output, contradicting the claim that
every containment match upgrades. -/
theorem C5_counterexample :
    vendor_merge_contracts [mergeA, mergeB] ["CT1001"] (fun _ => none)
      = [{ mergeA with source := "MOCS & Checkbook" }, mergeB] ∧
    containsL "CT100".data "CT1001".data = true ∧
    mergeB.source = "MOCS" ∧ ¬ mergeB.source = "MOCS & Checkbook" := by
  decide

lemma assocGet_cons (p : String × List ℕ) (rest : List (String × List ℕ))
    (k' : String) :
    assocGet (p :: rest) k' = if p.1 = k' then some p.2 else assocGet rest k' := by
  by_cases h : p.1 = k' <;> simp [assocGet, List.find?_cons, h]

lemma assocGet_mocsMapInsert (m : List (String × List ℕ)) (k : String) (i : ℕ)
    (k' : String) :
    assocGet (mocsMapInsert m k i) k' =
      if k' = k then some ((assocGet m k).getD [] ++ [i])
      else assocGet m k' := by
  induction m with
  | nil =>
    by_cases h : k' = k
    · subst h; simp [mocsMapInsert, assocGet, List.find?_cons]
    · have h' : ¬ k = k' := fun hh => h hh.symm
      simp [mocsMapInsert, assocGet, List.find?_cons, h, h']
  | cons p rest ih =>
    by_cases hpk : p.1 = k
    · have hins : mocsMapInsert (p :: rest) k i = (p.1, p.2 ++ [i]) :: rest := by
        simp [mocsMapInsert, hpk]
      by_cases hk' : k' = k
      · subst hk'
        simp [hins, assocGet_cons, hpk]
      · have hp' : ¬ p.1 = k' := fun hh => hk' (hh.symm.trans hpk)
        simp [hins, assocGet_cons, hp', hk']
    · have hins : mocsMapInsert (p :: rest) k i = p :: mocsMapInsert rest k i := by
        simp [mocsMapInsert, hpk]
      by_cases hk' : k' = k
      · subst hk'
        simp [hins, assocGet_cons, hpk, ih]
      · simp [hins, assocGet_cons, ih, hk']

lemma assocGet_eq_some_mem (m : List (String × List ℕ)) (k : String)
    (is : List ℕ) (h : assocGet m k = some is) : (k, is) ∈ m := by
  unfold assocGet at h
  cases hf : m.find? (fun p => p.1 = k) with
  | none => rw [hf] at h; cases h
  | some p =>
    rw [hf] at h
    have hpk : p.1 = k := by
      have := List.find?_some hf
      exact of_decide_eq_true this
    have hmem := List.mem_of_find?_eq_some hf
    have hval : p.2 = is := by simpa using h
    have : p = (k, is) := by
      cases p; simp_all
    rwa [this] at hmem

lemma assocGet_ne_none_of_mem (m : List (String × List ℕ)) (k : String)
    (is : List ℕ) (h : (k, is) ∈ m) : assocGet m k ≠ none := by
  unfold assocGet
  have : (m.find? (fun p => p.1 = k)).isSome := by
    rw [List.find?_isSome]
    exact ⟨(k, is), h, by simp⟩
  cases hf : m.find? (fun p => p.1 = k) with
  | none => rw [hf] at this; cases this
  | some p => simp

lemma findContainEntry_eq_some (m : List (String × List ℕ)) (nid : String)
    (is : List ℕ) (h : findContainEntry m nid = some is) :
    ∃ k, (k, is) ∈ m ∧
      (containsL nid.data k.data || containsL k.data nid.data) = true := by
  unfold findContainEntry at h
  cases hf : m.find? (fun p => containsL nid.data p.1.data ||
      containsL p.1.data nid.data) with
  | none => rw [hf] at h; cases h
  | some p =>
    rw [hf] at h
    have hpred := List.find?_some hf
    have hmem := List.mem_of_find?_eq_some hf
    have hval : p.2 = is := by simpa using h
    exact ⟨p.1, by rw [← hval]; exact hmem, hpred⟩

lemma findContainEntry_ne_none_of_mem (m : List (String × List ℕ))
    (nid : String) (p : String × List ℕ) (hp : p ∈ m)
    (hpred : (containsL nid.data p.1.data || containsL p.1.data nid.data) = true) :
    findContainEntry m nid ≠ none := by
  unfold findContainEntry
  have : (m.find? (fun q => containsL nid.data q.1.data ||
      containsL q.1.data nid.data)).isSome := by
    rw [List.find?_isSome]
    exact ⟨p, hp, hpred⟩
  cases hf : m.find? (fun q => containsL nid.data q.1.data ||
      containsL q.1.data nid.data) with
  | none => rw [hf] at this; cases this
  | some q => simp

lemma mapSound_mocsMapInsert (f : ℕ → String) (k : String) (i : ℕ)
    (hk : k ≠ "") (hi : f i = k) :
    ∀ m, mapSound f m → mapSound f (mocsMapInsert m k i) := by
  intro m
  induction m with
  | nil =>
    intro _ p hp
    simp only [mocsMapInsert, List.mem_singleton] at hp
    subst hp
    refine ⟨hk, fun j hj => ?_⟩
    simp only [List.mem_singleton] at hj
    subst hj
    exact hi
  | cons q rest ih =>
    intro hm p hp
    by_cases hqk : q.1 = k
    · rw [show mocsMapInsert (q :: rest) k i = (q.1, q.2 ++ [i]) :: rest by
        simp [mocsMapInsert, hqk]] at hp
      rcases List.mem_cons.mp hp with rfl | hmem
      · have hq := hm q (List.mem_cons_self _ _)
        refine ⟨hq.1, fun j hj => ?_⟩
        rcases List.mem_append.mp hj with hj1 | hj2
        · exact hq.2 j hj1
        · simp only [List.mem_singleton] at hj2
          subst hj2
          rw [hi, hqk]
      · exact hm p (List.mem_cons_of_mem _ hmem)
    · rw [show mocsMapInsert (q :: rest) k i = q :: mocsMapInsert rest k i by
        simp [mocsMapInsert, hqk]] at hp
      rcases List.mem_cons.mp hp with rfl | hmem
      · exact hm p (List.mem_cons_self _ _)
      · exact ih (fun r hr => hm r (List.mem_cons_of_mem _ hr)) p hmem

lemma mapCompleteUpto_mocsMapInsert (f : ℕ → String) (m : List (String × List ℕ))
    (k : String) (i : ℕ) (n : ℕ) (h : mapCompleteUpto f m n) :
    mapCompleteUpto f (mocsMapInsert m k i) n := by
  intro j hj hfj
  obtain ⟨is, hget, hjis⟩ := h j hj hfj
  rw [assocGet_mocsMapInsert]
  by_cases hk : f j = k
  · rw [if_pos hk]
    refine ⟨_, rfl, ?_⟩
    rw [← hk, hget]
    simp [hjis]
  · rw [if_neg hk]
    exact ⟨is, hget, hjis⟩

lemma mapCompleteUpto_succ (f : ℕ → String) (m : List (String × List ℕ))
    (i : ℕ) (hfi : f i ≠ "") (h : mapCompleteUpto f m i) :
    mapCompleteUpto f (mocsMapInsert m (f i) i) (i + 1) := by
  intro j hj hfj
  rcases Nat.lt_succ_iff_lt_or_eq.mp hj with hlt | rfl
  · exact mapCompleteUpto_mocsMapInsert f m (f i) i i h j hlt hfj
  · rw [assocGet_mocsMapInsert, if_pos rfl]
    exact ⟨_, rfl, by simp⟩

lemma buildFrom_sound (f : ℕ → String) :
    ∀ (rest : List String) (i : ℕ) (m : List (String × List ℕ)),
    (∀ t, t < rest.length → rest.getD t "" = f (i + t)) →
    mapSound f m → mapSound f (buildMocsMapFrom i m rest) := by
  intro rest
  induction rest with
  | nil => intro i m _ hm; exact hm
  | cons nid rs ih =>
    intro i m halign hm
    rw [buildMocsMapFrom]
    apply ih (i + 1)
    · intro t ht
      have := halign (t + 1) (by simpa using Nat.succ_lt_succ ht)
      simpa [Nat.add_comm, Nat.add_assoc, Nat.add_left_comm] using this
    · by_cases hnid : nid = ""
      · simpa [hnid] using hm
      · rw [if_neg hnid]
        have hfi : f i = nid := by
          have := halign 0 (by simp)
          simpa using this.symm
        exact mapSound_mocsMapInsert f nid i hnid hfi m hm

lemma buildFrom_complete (f : ℕ → String) :
    ∀ (rest : List String) (i : ℕ) (m : List (String × List ℕ)),
    (∀ t, t < rest.length → rest.getD t "" = f (i + t)) →
    mapCompleteUpto f m i →
    mapCompleteUpto f (buildMocsMapFrom i m rest) (i + rest.length) := by
  intro rest
  induction rest with
  | nil => intro i m _ hm; simpa using hm
  | cons nid rs ih =>
    intro i m halign hm
    rw [buildMocsMapFrom]
    have hnext : mapCompleteUpto f (if nid = "" then m
        else mocsMapInsert m nid i) (i + 1) := by
      by_cases hnid : nid = ""
      · rw [if_pos hnid]
        intro j hj hfj
        rcases Nat.lt_succ_iff_lt_or_eq.mp hj with hlt | rfl
        · exact hm j hlt hfj
        · have hfi : f j = nid := by
            have := halign 0 (by simp)
            simpa using this.symm
          exact absurd (hfi.trans hnid) hfj
      · rw [if_neg hnid]
        have hfi : f i = nid := by
          have := halign 0 (by simp)
          simpa using this.symm
        rw [← hfi]
        exact mapCompleteUpto_succ f m i (by rw [hfi]; exact hnid) hm
    have := ih (i + 1) _ (fun t ht => by
      have := halign (t + 1) (by simpa using Nat.succ_lt_succ ht)
      simpa [Nat.add_comm, Nat.add_assoc, Nat.add_left_comm] using this) hnext
    have harith : i + 1 + rs.length = i + (rs.length + 1) := by omega
    rw [harith] at this
    simpa using this

lemma mergeMap_sound (mocs : List MergeContract) :
    mapSound (fun j => (mergeNids mocs).getD j "") (mergeMap mocs) := by
  unfold mergeMap buildMocsMap
  apply buildFrom_sound
  · intro t _
    simp
  · intro p hp
    cases hp

lemma mergeMap_complete (mocs : List MergeContract) :
    mapCompleteUpto (fun j => (mergeNids mocs).getD j "") (mergeMap mocs)
      (mergeNids mocs).length := by
  unfold mergeMap buildMocsMap
  have h0 : mapCompleteUpto (fun j => (mergeNids mocs).getD j "") [] 0 := by
    intro j hj
    exact absurd hj (Nat.not_lt_zero j)
  have := buildFrom_complete (fun j => (mergeNids mocs).getD j "")
    (mergeNids mocs) 0 [] (fun t _ => by simp) h0
  simpa using this

lemma upgradeFrom_length (idxs : List ℕ) :
    ∀ (j0 : ℕ) (l : List String), (upgradeFrom idxs j0 l).length = l.length := by
  intro j0 l
  induction l generalizing j0 with
  | nil => rfl
  | cons s rest ih => simp [upgradeFrom, ih]

lemma upgradeFrom_getD (idxs : List ℕ) :
    ∀ (l : List String) (j0 j : ℕ), j < l.length →
    (upgradeFrom idxs j0 l).getD j "" =
      if (j0 + j) ∈ idxs then "MOCS & Checkbook" else l.getD j "" := by
  intro l
  induction l with
  | nil =>
    intro j0 j hj
    exact absurd hj (Nat.not_lt_zero j)
  | cons s rest ih =>
    intro j0 j hj
    cases j with
    | zero => simp [upgradeFrom]
    | succ j' =>
      have hj' : j' < rest.length := by simpa using hj
      simp only [upgradeFrom, List.getD_cons_succ]
      rw [ih (j0 + 1) j' hj']
      have harith : j0 + 1 + j' = j0 + (j' + 1) := by omega
      rw [harith]

lemma checkbookStep_empty (m : List (String × List ℕ))
    (stats : String → Option String) (st : List String × List MergeContract) :
    checkbookStep m stats st "" = st := by
  simp [checkbookStep]

lemma checkbookStep_exact (m : List (String × List ℕ))
    (stats : String → Option String) (st : List String × List MergeContract)
    (y : String) (hy : y ≠ "") (is : List ℕ)
    (h : assocGet m (normalize_for_match (some y)) = some is) :
    checkbookStep m stats st y = (upgradeFrom is 0 st.1, st.2) := by
  simp [checkbookStep, hy, h]

lemma checkbookStep_contain (m : List (String × List ℕ))
    (stats : String → Option String) (st : List String × List MergeContract)
    (y : String) (hy : y ≠ "")
    (hex : assocGet m (normalize_for_match (some y)) = none) (is : List ℕ)
    (h : findContainEntry m (normalize_for_match (some y)) = some is) :
    checkbookStep m stats st y = (upgradeFrom is 0 st.1, st.2) := by
  simp [checkbookStep, hy, hex, h]

lemma checkbookStep_miss (m : List (String × List ℕ))
    (stats : String → Option String) (st : List String × List MergeContract)
    (y : String) (hy : y ≠ "")
    (hex : assocGet m (normalize_for_match (some y)) = none)
    (hco : findContainEntry m (normalize_for_match (some y)) = none) :
    checkbookStep m stats st y = (st.1, st.2 ++ [syntheticFor stats y]) := by
  simp [checkbookStep, hy, hex, hco]

/-- Either a step leaves the marker list alone, or it upgrades the indices of
one map entry hit by the checkbook id. -/
lemma checkbookStep_fst (m : List (String × List ℕ))
    (stats : String → Option String) (st : List String × List MergeContract)
    (y : String) :
    (checkbookStep m stats st y).1 = st.1 ∨
    (y ≠ "" ∧ ∃ k is, (k, is) ∈ m ∧ matchesKey k y ∧
      (checkbookStep m stats st y).1 = upgradeFrom is 0 st.1) := by
  by_cases hy : y = ""
  · subst hy; rw [checkbookStep_empty]; exact Or.inl rfl
  · cases hex : assocGet m (normalize_for_match (some y)) with
    | some is =>
      right
      refine ⟨hy, normalize_for_match (some y), is,
        assocGet_eq_some_mem m _ is hex, Or.inl rfl, ?_⟩
      rw [checkbookStep_exact m stats st y hy is hex]
    | none =>
      cases hco : findContainEntry m (normalize_for_match (some y)) with
      | some is =>
        obtain ⟨k, hkm, hpred⟩ := findContainEntry_eq_some m _ is hco
        right
        refine ⟨hy, k, is, hkm, Or.inr hpred, ?_⟩
        rw [checkbookStep_contain m stats st y hy hex is hco]
      | none =>
        left
        rw [checkbookStep_miss m stats st y hy hex hco]

/-- Either a step leaves the synthetic list alone, or (both lookups missed) it
appends exactly one synthetic Checkbook record. -/
lemma checkbookStep_snd (m : List (String × List ℕ))
    (stats : String → Option String) (st : List String × List MergeContract)
    (y : String) :
    (checkbookStep m stats st y).2 = st.2 ∨
    (y ≠ "" ∧ assocGet m (normalize_for_match (some y)) = none ∧
      findContainEntry m (normalize_for_match (some y)) = none ∧
      (checkbookStep m stats st y).2 = st.2 ++ [syntheticFor stats y]) := by
  by_cases hy : y = ""
  · subst hy; rw [checkbookStep_empty]; exact Or.inl rfl
  · cases hex : assocGet m (normalize_for_match (some y)) with
    | some is => rw [checkbookStep_exact m stats st y hy is hex]; exact Or.inl rfl
    | none =>
      cases hco : findContainEntry m (normalize_for_match (some y)) with
      | some is =>
        rw [checkbookStep_contain m stats st y hy hex is hco]; exact Or.inl rfl
      | none =>
        right
        exact ⟨hy, rfl, rfl, by rw [checkbookStep_miss m stats st y hy hex hco]⟩

lemma checkbookStep_fst_length (m : List (String × List ℕ))
    (stats : String → Option String) (st : List String × List MergeContract)
    (y : String) :
    (checkbookStep m stats st y).1.length = st.1.length := by
  rcases checkbookStep_fst m stats st y with h | ⟨_, _, _, _, _, h⟩
  · rw [h]
  · rw [h, upgradeFrom_length]

lemma foldl_sources_length (m : List (String × List ℕ))
    (stats : String → Option String) (cb : List String) :
    ∀ st : List String × List MergeContract,
    (cb.foldl (checkbookStep m stats) st).1.length = st.1.length := by
  induction cb with
  | nil => intro st; rfl
  | cons y rest ih =>
    intro st
    rw [List.foldl_cons, ih, checkbookStep_fst_length]

/-- A contract whose normalized id matches none of the checkbook ids (or is
empty, hence absent from the map) keeps its marker through the whole fold. -/
lemma foldl_sources_keep (m : List (String × List ℕ))
    (stats : String → Option String) (f : ℕ → String) (hsound : mapSound f m)
    (j : ℕ) (cb : List String) :
    ∀ st : List String × List MergeContract, j < st.1.length →
    (f j = "" ∨ ∀ y ∈ cb, y ≠ "" → ¬ matchesKey (f j) y) →
    (cb.foldl (checkbookStep m stats) st).1.getD j "" = st.1.getD j "" := by
  induction cb with
  | nil => intro st _ _; rfl
  | cons y rest ih =>
    intro st hj hcond
    rw [List.foldl_cons]
    have hstep : (checkbookStep m stats st y).1.getD j "" = st.1.getD j "" := by
      rcases checkbookStep_fst m stats st y with h | ⟨hy, k, is, hkm, hmk, h⟩
      · rw [h]
      · have hjis : j ∉ is := by
          intro hjin
          have hs := hsound (k, is) hkm
          have hfk : f j = k := hs.2 j hjin
          rcases hcond with hemp | hno
          · exact hs.1 (hfk ▸ hemp)
          · exact hno y (List.mem_cons_self _ _) hy (hfk ▸ hmk)
        rw [h, upgradeFrom_getD is st.1 0 j hj]
        simp [hjis]
    have hlen : j < (checkbookStep m stats st y).1.length := by
      rw [checkbookStep_fst_length]; exact hj
    have hcond' : f j = "" ∨ ∀ y' ∈ rest, y' ≠ "" → ¬ matchesKey (f j) y' := by
      rcases hcond with hemp | hno
      · exact Or.inl hemp
      · exact Or.inr (fun y' hy' => hno y' (List.mem_cons_of_mem _ hy'))
    rw [ih (checkbookStep m stats st y) hlen hcond', hstep]

/-- The both-sources marker, once set, survives the rest of the fold. -/
lemma foldl_sources_both (m : List (String × List ℕ))
    (stats : String → Option String) (j : ℕ) (cb : List String) :
    ∀ st : List String × List MergeContract, j < st.1.length →
    st.1.getD j "" = "MOCS & Checkbook" →
    (cb.foldl (checkbookStep m stats) st).1.getD j "" = "MOCS & Checkbook" := by
  induction cb with
  | nil => intro st _ h; exact h
  | cons y rest ih =>
    intro st hj hval
    rw [List.foldl_cons]
    have hlen : j < (checkbookStep m stats st y).1.length := by
      rw [checkbookStep_fst_length]; exact hj
    apply ih (checkbookStep m stats st y) hlen
    rcases checkbookStep_fst m stats st y with h | ⟨_, _, is, _, _, h⟩
    · rw [h]; exact hval
    · rw [h, upgradeFrom_getD is st.1 0 j hj, Nat.zero_add]
      by_cases hjis : j ∈ is
      · rw [if_pos hjis]
      · rw [if_neg hjis]; exact hval

/-- A contract whose normalized id is exactly hit by some checkbook id of the
list ends up with the both-sources marker. -/
lemma foldl_sources_upgrade_exact (m : List (String × List ℕ))
    (stats : String → Option String) (f : ℕ → String) (j : ℕ) (is₀ : List ℕ)
    (hget : assocGet m (f j) = some is₀) (hjis : j ∈ is₀) (cb : List String) :
    ∀ st : List String × List MergeContract, j < st.1.length →
    (∃ y ∈ cb, y ≠ "" ∧ normalize_for_match (some y) = f j) →
    (cb.foldl (checkbookStep m stats) st).1.getD j "" = "MOCS & Checkbook" := by
  induction cb with
  | nil =>
    intro st _ hex
    simp at hex
  | cons y rest ih =>
    intro st hj hex
    rw [List.foldl_cons]
    have hlen : j < (checkbookStep m stats st y).1.length := by
      rw [checkbookStep_fst_length]; exact hj
    rcases hex with ⟨y', hy', hyne, hynorm⟩
    rcases List.mem_cons.mp hy' with rfl | hmem
    · have hstep := checkbookStep_exact m stats st y' hyne is₀
        (by rw [hynorm]; exact hget)
      have hval : (checkbookStep m stats st y').1.getD j "" = "MOCS & Checkbook" := by
        rw [hstep]
        simp only []
        rw [upgradeFrom_getD is₀ st.1 0 j hj]
        simp [hjis]
      exact foldl_sources_both m stats j rest _ hlen hval
    · exact ih (checkbookStep m stats st y) hlen ⟨y', hmem, hyne, hynorm⟩

/-- When a checkbook id of the list has no exact hit but a containment hit,
every contract of the first overlapping entry ends up both-sources. -/
lemma foldl_sources_upgrade_contain (m : List (String × List ℕ))
    (stats : String → Option String) (j : ℕ) (is₀ : List ℕ) (y₀ : String)
    (hy₀ : y₀ ≠ "")
    (hex : assocGet m (normalize_for_match (some y₀)) = none)
    (hco : findContainEntry m (normalize_for_match (some y₀)) = some is₀)
    (hjis : j ∈ is₀) (cb : List String) :
    ∀ st : List String × List MergeContract, j < st.1.length → y₀ ∈ cb →
    (cb.foldl (checkbookStep m stats) st).1.getD j "" = "MOCS & Checkbook" := by
  induction cb with
  | nil =>
    intro st _ hmem
    cases hmem
  | cons y rest ih =>
    intro st hj hmem
    rw [List.foldl_cons]
    have hlen : j < (checkbookStep m stats st y).1.length := by
      rw [checkbookStep_fst_length]; exact hj
    rcases List.mem_cons.mp hmem with heq | hmem'
    · have hstep := checkbookStep_contain m stats st y
        (heq ▸ hy₀) (heq ▸ hex) is₀ (heq ▸ hco)
      have hval : (checkbookStep m stats st y).1.getD j "" = "MOCS & Checkbook" := by
        rw [hstep]
        simp only []
        rw [upgradeFrom_getD is₀ st.1 0 j hj]
        simp [hjis]
      exact foldl_sources_both m stats j rest _ hlen hval
    · exact ih (checkbookStep m stats st y) hlen hmem'

/-- A checkbook id that hits some map entry (exactly or by containment) never
produces a synthetic record. -/
lemma foldl_synth_countP_matched (m : List (String × List ℕ))
    (stats : String → Option String) (y₀ : String)
    (hmatch : ∃ p ∈ m, matchesKey p.1 y₀) (cb : List String) :
    ∀ st : List String × List MergeContract,
    (cb.foldl (checkbookStep m stats) st).2.countP
        (fun c => c.ctr_id == some y₀)
      = st.2.countP (fun c => c.ctr_id == some y₀) := by
  induction cb with
  | nil => intro st; rfl
  | cons y rest ih =>
    intro st
    rw [List.foldl_cons, ih]
    rcases checkbookStep_snd m stats st y with h | ⟨hy, hex, hco, h⟩
    · rw [h]
    · have hyy : ¬ y = y₀ := by
        rintro rfl
        rcases hmatch with ⟨p, hp, hmk⟩
        rcases hmk with hmk | hmk
        · have : assocGet m (normalize_for_match (some y)) ≠ none := by
            rw [hmk]
            exact assocGet_ne_none_of_mem m p.1 p.2 (by simpa using hp)
          exact this hex
        · exact findContainEntry_ne_none_of_mem m _ p hp hmk hco
      rw [h, List.countP_append]
      simp [syntheticFor, hyy]

/-- A non-empty checkbook id that hits no map entry produces exactly one
synthetic record per occurrence in the id list. -/
lemma foldl_synth_countP_unmatched (m : List (String × List ℕ))
    (stats : String → Option String) (y₀ : String) (hy₀ : y₀ ≠ "")
    (hnone : ∀ p ∈ m, ¬ matchesKey p.1 y₀) (cb : List String) :
    ∀ st : List String × List MergeContract,
    (cb.foldl (checkbookStep m stats) st).2.countP
        (fun c => c.ctr_id == some y₀)
      = st.2.countP (fun c => c.ctr_id == some y₀) + cb.count y₀ := by
  induction cb with
  | nil => intro st; simp
  | cons y rest ih =>
    intro st
    rw [List.foldl_cons, ih]
    by_cases hyy : y = y₀
    · subst hyy
      have hex : assocGet m (normalize_for_match (some y)) = none := by
        cases h : assocGet m (normalize_for_match (some y)) with
        | none => rfl
        | some is =>
          have hmem := assocGet_eq_some_mem m _ is h
          exact absurd (Or.inl rfl)
            (hnone (normalize_for_match (some y), is) hmem)
      have hco : findContainEntry m (normalize_for_match (some y)) = none := by
        cases h : findContainEntry m (normalize_for_match (some y)) with
        | none => rfl
        | some is =>
          obtain ⟨k, hkm, hpred⟩ := findContainEntry_eq_some m _ is h
          exact absurd (Or.inr hpred) (hnone (k, is) hkm)
      rw [checkbookStep_miss m stats st y hy₀ hex hco]
      simp [List.countP_append, syntheticFor, List.count_cons]
      omega
    · have hcnt : (y :: rest).count y₀ = rest.count y₀ := by
        simp [List.count_cons, hyy]
      rw [hcnt]
      rcases checkbookStep_snd m stats st y with h | ⟨_, _, _, h⟩
      · rw [h]
      · rw [h, List.countP_append]
        simp [syntheticFor, hyy]

/-- Every record on the synthetic side of the fold is the synthetic record of
some checkbook id of the list. -/
lemma foldl_synth_mem (m : List (String × List ℕ))
    (stats : String → Option String) (cb : List String) :
    ∀ (st : List String × List MergeContract) (c : MergeContract),
    c ∈ (cb.foldl (checkbookStep m stats) st).2 →
    c ∈ st.2 ∨ ∃ y ∈ cb, c = syntheticFor stats y := by
  induction cb with
  | nil => intro st c hc; exact Or.inl hc
  | cons y rest ih =>
    intro st c hc
    rw [List.foldl_cons] at hc
    rcases ih (checkbookStep m stats st y) c hc with hstep | ⟨y', hy', rfl⟩
    · rcases checkbookStep_snd m stats st y with h | ⟨_, _, _, h⟩
      · rw [h] at hstep; exact Or.inl hstep
      · rw [h] at hstep
        rcases List.mem_append.mp hstep with h1 | h2
        · exact Or.inl h1
        · simp only [List.mem_singleton] at h2
          exact Or.inr ⟨y, List.mem_cons_self _ _, h2⟩
    · exact Or.inr ⟨y', List.mem_cons_of_mem _ hy', rfl⟩

lemma mergeNids_length (mocs : List MergeContract) :
    (mergeNids mocs).length = mocs.length := by
  simp [mergeNids, mergeBase]

lemma merge_init_length (mocs : List MergeContract) :
    ((mergeBase mocs).map (fun c => c.source)).length = mocs.length := by
  simp [mergeBase]

lemma merge_init_getD (mocs : List MergeContract) (j : ℕ) (hj : j < mocs.length) :
    ((mergeBase mocs).map (fun c => c.source)).getD j "" = "MOCS" := by
  induction mocs generalizing j with
  | nil => exact absurd hj (Nat.not_lt_zero j)
  | cons c rest ih =>
    cases j with
    | zero => rfl
    | succ j' =>
      have hj' : j' < rest.length := by simpa using hj
      simpa [mergeBase, List.getD_cons_succ] using ih j' hj'

lemma mergeFold_fst_length (mocs : List MergeContract) (cb : List String)
    (stats : String → Option String) :
    (mergeFold mocs cb stats).1.length = mocs.length := by
  unfold mergeFold
  rw [foldl_sources_length]
  exact merge_init_length mocs

/-- C5 (amended): the merge of the relational contracts with the distinct
checkbook transaction ids.  (1) The output is sorted by start date descending
(missing dates as the `'0000'` sentinel) and is a permutation of the
marker-updated relational contracts followed by the synthetic records.
(2) A relational contract whose normalized id is hit by NO checkbook id
(exactly or by containment) keeps the first-source-only marker `"MOCS"`.
(3) A relational contract whose normalized id EXACTLY equals some checkbook
id's normalized form is upgraded to `"MOCS & Checkbook"`.  (4) When a
checkbook id has no exact hit, the FIRST containment-overlapping map entry
(and in general only that one) is upgraded.  (5) A non-empty checkbook id
hitting no relational id (neither exactly nor by containment) yields exactly
one synthetic record bearing it (ids are distinct in the source query).
(6) A checkbook id hitting some relational id yields no synthetic record.
(7) Every synthetic record is the Checkbook-tagged record of some checkbook
id. -/
theorem C5_vendor_merge_amended (mocs : List MergeContract) (cb : List String)
    (stats : String → Option String) :
    List.Sorted mergeLe (vendor_merge_contracts mocs cb stats) ∧
    (vendor_merge_contracts mocs cb stats).Perm (mergeUnsorted mocs cb stats) ∧
    (∀ j, j < mocs.length →
      ((mergeNids mocs).getD j "" = "" ∨
        (∀ y ∈ cb, y ≠ "" → ¬ matchesKey ((mergeNids mocs).getD j "") y)) →
      (mergeFold mocs cb stats).1.getD j "" = "MOCS") ∧
    (∀ j, j < mocs.length → (mergeNids mocs).getD j "" ≠ "" →
      (∃ y ∈ cb, y ≠ "" ∧
        normalize_for_match (some y) = (mergeNids mocs).getD j "") →
      (mergeFold mocs cb stats).1.getD j "" = "MOCS & Checkbook") ∧
    (∀ y ∈ cb, y ≠ "" →
      assocGet (mergeMap mocs) (normalize_for_match (some y)) = none →
      ∀ is, findContainEntry (mergeMap mocs) (normalize_for_match (some y))
          = some is →
      ∀ j ∈ is, j < mocs.length →
      (mergeFold mocs cb stats).1.getD j "" = "MOCS & Checkbook") ∧
    (∀ y ∈ cb, y ≠ "" → cb.count y = 1 →
      (∀ p ∈ mergeMap mocs, ¬ matchesKey p.1 y) →
      (mergeFold mocs cb stats).2.countP (fun c => c.ctr_id == some y) = 1) ∧
    (∀ y₀ : String, (∃ p ∈ mergeMap mocs, matchesKey p.1 y₀) →
      (mergeFold mocs cb stats).2.countP (fun c => c.ctr_id == some y₀) = 0) ∧
    (∀ c ∈ (mergeFold mocs cb stats).2, ∃ y ∈ cb, c = syntheticFor stats y) := by
  have hinitlen : ((mergeBase mocs).map (fun c => c.source)).length = mocs.length :=
    merge_init_length mocs
  haveI : IsTotal MergeContract mergeLe :=
    ⟨fun a b => lexLeN_total (pySortKey b) (pySortKey a)⟩
  haveI : IsTrans MergeContract mergeLe :=
    ⟨fun _ _ _ hab hbc => lexLeN_trans _ _ _ hbc hab⟩
  refine ⟨List.sorted_insertionSort mergeLe _, List.perm_insertionSort mergeLe _,
    ?_, ?_, ?_, ?_, ?_, ?_⟩
  · intro j hj hcond
    unfold mergeFold
    rw [foldl_sources_keep (mergeMap mocs) stats
      (fun j' => (mergeNids mocs).getD j' "") (mergeMap_sound mocs) j cb _
      (by rw [hinitlen]; exact hj) hcond]
    exact merge_init_getD mocs j hj
  · intro j hj hne hex
    obtain ⟨is₀, hget, hjis⟩ := mergeMap_complete mocs j
      (by rw [mergeNids_length]; exact hj) hne
    unfold mergeFold
    exact foldl_sources_upgrade_exact (mergeMap mocs) stats
      (fun j' => (mergeNids mocs).getD j' "") j is₀ hget hjis cb _
      (by rw [hinitlen]; exact hj) hex
  · intro y hy hyne hexnone is hco j hjis hj
    unfold mergeFold
    exact foldl_sources_upgrade_contain (mergeMap mocs) stats j is y hyne
      hexnone hco hjis cb _ (by rw [hinitlen]; exact hj) hy
  · intro y hy hyne hcount hnone
    unfold mergeFold
    rw [foldl_synth_countP_unmatched (mergeMap mocs) stats y hyne hnone cb _]
    simp [hcount]
  · intro y₀ hmatch
    unfold mergeFold
    rw [foldl_synth_countP_matched (mergeMap mocs) stats y₀ hmatch cb _]
    rfl
  · intro c hc
    unfold mergeFold at hc
    rcases foldl_synth_mem (mergeMap mocs) stats cb _ c hc with habs | hex
    · cases habs
    · exact hex

/-- C5 witness: the amended theorem at the concrete inputs — the exactly
matching contract is upgraded to both-sources, and the unmatched checkbook
id `"ZZZ9"` yields exactly one synthetic record. -/
theorem C5_merge_witness :
    (mergeFold [mergeA, mergeB] ["CT1001", "ZZZ9"] (fun _ => none)).1.getD 0 ""
      = "MOCS & Checkbook" ∧
    (mergeFold [mergeA, mergeB] ["CT1001", "ZZZ9"] (fun _ => none)).2.countP
      (fun c => c.ctr_id == some "ZZZ9") = 1 := by
  constructor
  · exact (C5_vendor_merge_amended [mergeA, mergeB] ["CT1001", "ZZZ9"]
      (fun _ => none)).2.2.2.1 0 (by decide) (by decide) (by decide)
  · exact (C5_vendor_merge_amended [mergeA, mergeB] ["CT1001", "ZZZ9"]
      (fun _ => none)).2.2.2.2.2.1 "ZZZ9" (by decide) (by decide) (by decide)
      (by decide)

/-! ## Canonicalizer lemmas -/

/-- An uppercase-alphanumeric character is a fixed point of `Char.toUpper`. -/
lemma toUpper_of_isUpperAlnum {c : Char} (h : isUpperAlnum c = true) :
    c.toUpper = c := by
  have h' : ('A' ≤ c ∧ c ≤ 'Z') ∨ ('0' ≤ c ∧ c ≤ '9') := by
    simpa [isUpperAlnum, Bool.or_eq_true, Bool.and_eq_true,
      decide_eq_true_iff] using h
  have hn : c.toNat < 97 := by
    rcases h' with ⟨_, h2⟩ | ⟨_, h2⟩ <;>
      · have h3 : c.toNat ≤ _ := Char.le_def.mp h2
        simp [Char.toNat] at h3 ⊢
        omega
  simp only [Char.toUpper]
  have hx : ¬ (c.toNat ≥ 97 ∧ c.toNat ≤ 122) := by omega
  simp [hx]

/-- Stripping to `[A-Z0-9]` after uppercasing is idempotent on the string
level. -/
lemma canonClean_idem (s : String) : canonClean (canonClean s) = canonClean s := by
  unfold canonClean
  congr 1
  have hmem : ∀ c ∈ (s.data.map Char.toUpper).filter isUpperAlnum,
      isUpperAlnum c = true := fun c hc => List.of_mem_filter hc
  have hmap : ((s.data.map Char.toUpper).filter isUpperAlnum).map Char.toUpper
      = (s.data.map Char.toUpper).filter isUpperAlnum := by
    have h := List.map_congr_left (l := (s.data.map Char.toUpper).filter isUpperAlnum)
      (f := Char.toUpper) (g := id)
      (fun c hc => toUpper_of_isUpperAlnum (hmem c hc))
    simpa using h
  rw [hmap]
  exact List.filter_eq_self.mpr hmem

/-! ## Claim C8 -/

/-- C8 counterexample: `canonicalize_id` is not idempotent on punctuation-only
strings — `normalize_contract_id("--")` is the empty string, and
canonicalizing that empty string gives `None`. -/
theorem C8_counterexample :
    normalize_contract_id (some "--") = some "" ∧
    normalize_contract_id (normalize_contract_id (some "--")) = none ∧
    normalize_contract_id (normalize_contract_id (some "--"))
      ≠ normalize_contract_id (some "--") := by
  decide

/-- C8 (amended): `canonicalize_id` is idempotent on an input exactly when the
canonical form of the input is not the (non-`None`) empty string; that is, for
every input except a non-empty string whose characters are all stripped. -/
theorem C8_canonicalize_idempotent_iff (x : Option String) :
    normalize_contract_id (normalize_contract_id x) = normalize_contract_id x ↔
      normalize_contract_id x ≠ some "" := by
  match x with
  | none => simp [normalize_contract_id]
  | some s =>
    by_cases hs : s = ""
    · subst hs; simp [normalize_contract_id]
    · simp only [normalize_contract_id, if_neg hs]
      by_cases hc : canonClean s = ""
      · rw [hc]; simp [normalize_contract_id]
      · simp [normalize_contract_id, hc, canonClean_idem]

/-! ## Claim C9 -/

/-- C9 counterexample: the canonicalizers do not send every empty-or-`None`
input to `None`, and raw identifiers with the same stripped-and-uppercased
form can canonicalize differently: `""` and `"-"` both strip to `""`, yet
`normalize_contract_id` maps the former to `None` and the latter to `""`
(and `clean_name` returns `""`, never `None`). -/
theorem C9_counterexample :
    canonClean "" = canonClean "-" ∧
    normalize_contract_id (some "") = none ∧
    normalize_contract_id (some "-") = some "" ∧
    normalize_contract_id (some "") ≠ normalize_contract_id (some "-") ∧
    clean_name none = "" ∧ clean_name (some "") = "" := by
  decide

/-- C9 (amended): on every non-empty input each canonicalizer returns exactly
the uppercased input with every character outside `[A-Z0-9]` removed;
`normalize_contract_id` and `normalize_epin` return `None` on `None`/empty
input while `clean_name` returns `""`; and two NON-EMPTY raw identifiers with
the same stripped-and-uppercased form always canonicalize equal. -/
theorem C9_canonicalizers_amended :
    (∀ s : String, s ≠ "" →
      normalize_contract_id (some s) = some (canonClean s) ∧
      normalize_epin (some s) = some (canonClean s) ∧
      clean_name (some s) = canonClean s) ∧
    (normalize_contract_id none = none ∧ normalize_contract_id (some "") = none) ∧
    (normalize_epin none = none ∧ normalize_epin (some "") = none) ∧
    (clean_name none = "" ∧ clean_name (some "") = "") ∧
    (∀ a b : String, a ≠ "" → b ≠ "" → canonClean a = canonClean b →
      normalize_contract_id (some a) = normalize_contract_id (some b)) := by
  refine ⟨fun s hs => ?_, by simp [normalize_contract_id],
    by simp [normalize_epin], by simp [clean_name], fun a b ha hb hab => ?_⟩
  · simp [normalize_contract_id, normalize_epin, clean_name, hs]
  · simp [normalize_contract_id, ha, hb, hab]

/-- C9 witness: the amended theorem applied at concrete inputs. -/
theorem C9_witness :
    normalize_contract_id (some "x-1") = some "X1" ∧
    normalize_contract_id (some "x-1") = normalize_contract_id (some "X.1") := by
  constructor
  · have h := (C9_canonicalizers_amended.1 "x-1" (by decide)).1
    rw [h]
    decide
  · exact C9_canonicalizers_amended.2.2.2.2 "x-1" "X.1" (by decide) (by decide)
      (by decide)

/-! ## Claim C10 -/

/-- Whatever `float()` parse of a digits-and-dots string succeeds is
non-negative. -/
lemma pyFloatOfDigitsDots_nonneg (cs : List Char) (q : ℚ)
    (h : pyFloatOfDigitsDots cs = some q) : 0 ≤ q := by
  unfold pyFloatOfDigitsDots at h
  simp only [] at h
  split at h
  · exact absurd h (by simp)
  · split at h
    · exact absurd h (by simp)
    · obtain rfl := Option.some.inj h
      positivity

/-- C10: `clean_money` returns a non-negative value for every input
(including `None`): the minus sign and parentheses are stripped, so a credit
like `"-12.5"` is stored as its positive magnitude `12.5`. -/
theorem C10_clean_money_nonneg :
    (∀ v : Option String, 0 ≤ clean_money v) ∧
    clean_money (some "-12.5") = 25 / 2 ∧
    clean_money (some "(1,234.56)") = clean_money (some "1234.56") := by
  refine ⟨fun v => ?_,
    by simp [clean_money, pyFloatOfDigitsDots, digitsVal, isDigitOrDot]; norm_num,
    by simp [clean_money, pyFloatOfDigitsDots, digitsVal, isDigitOrDot]⟩
  match v with
  | none => simp [clean_money]
  | some s =>
    simp only [clean_money]
    split
    · exact le_refl 0
    · split
      · exact le_refl 0
      · split
        · next q hq => exact pyFloatOfDigitsDots_nonneg _ q hq
        · exact le_refl 0

/-! ## Claim C7 -/

/-- A single insert-or-ignore keyed on `RequestID` commutes with any rewrite
of the PIN column: the key and the constraint check never look at the PIN. -/
lemma insertOrIgnorePK_map_setPin (g : Option String → Option String)
    (t : List CrolCsvRow) (x : CrolCsvRow) :
    insertOrIgnorePK (fun r => r.requestId) (t.map (setPin g)) (setPin g x)
      = (insertOrIgnorePK (fun r => r.requestId) t x).map (setPin g) := by
  unfold insertOrIgnorePK
  simp only []
  have hkey : (setPin g x).requestId = x.requestId := rfl
  rw [hkey]
  cases hx : x.requestId with
  | none => simp
  | some k =>
    have hany : ((t.map (setPin g)).any (fun r => r.requestId = some k))
        = t.any (fun r => r.requestId = some k) := by
      rw [List.any_map]
      rfl
    simp only [hany]
    split
    · rfl
    · simp

/-- The `build_database.py` CROL loader is completely blind to the PIN
column: rewriting every PIN arbitrarily commutes with the load. -/
lemma build_load_crol_pin_blind (g : Option String → Option String) :
    ∀ (rows t : List CrolCsvRow),
    build_load_crol (t.map (setPin g)) (rows.map (setPin g))
      = (build_load_crol t rows).map (setPin g) := by
  intro rows
  induction rows with
  | nil => intro t; rfl
  | cons r rest ih =>
    intro t
    show insertManyOrIgnorePK _ (t.map (setPin g))
        (setPin g r :: rest.map (setPin g))
      = (insertManyOrIgnorePK _ t (r :: rest)).map (setPin g)
    rw [insertManyOrIgnorePK, insertManyOrIgnorePK, List.foldl_cons,
      List.foldl_cons, insertOrIgnorePK_map_setPin]
    exact ih (insertOrIgnorePK (fun r => r.requestId) t r)

/-- C7 counterexample, against both cited loaders.  The validating loader of
`import_crol.py` ACCEPTS the PIN `"0-0-0-0-0"`, which consists only of zeros
and punctuation (the all-zeros check removes only `'0'` and `'.'`).  And the
`build_database.py` loader performs no PIN validation at all: rows with PINs
`""`, `"0000"` and `"SEE BELOW"` are all stored. -/
theorem C7_counterexample :
    crol_valid_pin "0-0-0-0-0" = true ∧
    (∀ c ∈ "0-0-0-0-0".data, c = '0' ∨ c = '-') ∧
    8 ≤ "0-0-0-0-0".data.length ∧
    build_load_crol []
        [{ requestId := some "R1", pin := some "" },
         { requestId := some "R2", pin := some "0000" },
         { requestId := some "R3", pin := some "SEE BELOW" }]
      = [{ requestId := some "R1", pin := some "" },
         { requestId := some "R2", pin := some "0000" },
         { requestId := some "R3", pin := some "SEE BELOW" }] := by
  decide

/-- C7 (amended): of the two public-notice loaders, only `import_crol.py`'s
validates PINs.  That loader rejects, before any insertion is attempted,
every row whose stripped PIN is empty, shorter than 8 characters, a known
placeholder string, or consists only of zeros and DOTS (not arbitrary
punctuation); there `""`, `"0000"`, `"SEE BELOW"` and `"AB"` are rejected
while `"85826Y1251"` is accepted, and the batch handed to its insert contains
exactly the validated rows.  The `build_database.py` loader performs NO PIN
validation: its output is independent of the PIN column (rewriting every PIN
commutes with the load), and it stores rows with PINs `""`, `"0000"` and
`"SEE BELOW"`, deduplicated only by `RequestID`. -/
theorem C7_pin_validation_amended :
    (∀ raw : String, stripL raw.data = [] → crol_valid_pin raw = false) ∧
    (∀ raw : String, (stripL raw.data).length < 8 → crol_valid_pin raw = false) ∧
    (∀ raw : String,
      crolPlaceholders.contains ⟨(stripL raw.data).map Char.toUpper⟩ = true →
      crol_valid_pin raw = false) ∧
    (∀ raw : String, (∀ c ∈ stripL raw.data, c = '0' ∨ c = '.') →
      crol_valid_pin raw = false) ∧
    (crol_valid_pin "" = false ∧ crol_valid_pin "0000" = false ∧
     crol_valid_pin "SEE BELOW" = false ∧ crol_valid_pin "AB" = false ∧
     crol_valid_pin "85826Y1251" = true) ∧
    (∀ rows : List CrolCsvRow, ∀ r ∈ import_crol_kept rows,
      r ∈ rows ∧ crol_valid_pin (r.pin.getD "") = true) ∧
    (∀ rows : List CrolCsvRow, ∀ r ∈ rows,
      crol_valid_pin (r.pin.getD "") = true → r ∈ import_crol_kept rows) ∧
    (∀ (g : Option String → Option String) (t rows : List CrolCsvRow),
      build_load_crol (t.map (setPin g)) (rows.map (setPin g))
        = (build_load_crol t rows).map (setPin g)) ∧
    (build_load_crol []
        [{ requestId := some "R1", pin := some "" },
         { requestId := some "R2", pin := some "0000" },
         { requestId := some "R3", pin := some "SEE BELOW" }]
      = [{ requestId := some "R1", pin := some "" },
         { requestId := some "R2", pin := some "0000" },
         { requestId := some "R3", pin := some "SEE BELOW" }]) := by
  refine ⟨fun raw h => ?_, fun raw h => ?_, fun raw h => ?_, fun raw h => ?_,
    by decide, fun rows r hr => ?_, fun rows r hr hv => ?_,
    fun g t rows => build_load_crol_pin_blind g rows t, by decide⟩
  · simp [crol_valid_pin, h]
  · simp [crol_valid_pin, h]
  · unfold crol_valid_pin
    simp only []
    split_ifs <;> rfl
  · have hz : ((stripL raw.data).filter (fun c => c ≠ '0')).filter
        (fun c => c ≠ '.') = [] := by
      rw [List.filter_filter]
      apply List.filter_eq_nil_iff.mpr
      intro c hc
      rcases h c hc with rfl | rfl <;> simp
    unfold crol_valid_pin
    simp only []
    split_ifs <;> rfl
  · have := List.mem_filter.mp hr
    exact ⟨this.1, this.2⟩
  · exact List.mem_filter.mpr ⟨hr, hv⟩

/-- C7 witness: the amended theorem applied at concrete inputs — an
all-zeros-and-dots PIN of length 8 is rejected by the validating loader, a
short PIN is rejected. -/
theorem C7_witness :
    crol_valid_pin "0000000." = false ∧ crol_valid_pin "12345" = false := by
  constructor
  · exact C7_pin_validation_amended.2.2.2.1 "0000000." (by decide)
  · exact C7_pin_validation_amended.2.1 "12345" (by decide)

/-! ## Claim C2 -/

/-- C2 counterexample: for the contract EPIN `"ABC123XYZ9001"` (13 characters)
the web resolver finds the base solicitation through the 10-character prefix
retry, but the MCP resolver cited by the claim performs no retry at all and
reports no linked solicitation. -/
theorem C2_counterexample :
    resolve_solicitation_app [solAbc] (some "ABC123XYZ9001") = some solAbc ∧
    resolve_solicitation_mcp [solAbc] (some "ABC123XYZ9001") = none ∧
    10 < "ABC123XYZ9001".data.length := by
  decide

/-- C2 (amended): in the web contract-detail view the resolution is exact
lookup first; on a miss with a canonical EPIN longer than 10 characters
exactly one retry with the first 10 characters (so a fallback hit is linked
exactly once, never double-counted); both missing yields the absent marker
`none`.  The MCP tool's resolution performs only the exact lookup. -/
theorem C2_solicitation_resolution_amended (sols : List SolicitationRow)
    (k : String) (hk : k ≠ "") :
    (∀ s, findSolicitationByNormEpin sols k = some s →
      resolve_solicitation_app sols (some k) = some s) ∧
    (findSolicitationByNormEpin sols k = none → 10 < k.length →
      resolve_solicitation_app sols (some k)
        = findSolicitationByNormEpin sols ⟨k.data.take 10⟩) ∧
    (findSolicitationByNormEpin sols k = none → ¬ 10 < k.length →
      resolve_solicitation_app sols (some k) = none) ∧
    (resolve_solicitation_app sols none = none) ∧
    (resolve_solicitation_mcp sols (some k) = findSolicitationByNormEpin sols k) ∧
    (resolve_solicitation_mcp sols none = none) := by
  refine ⟨fun s hs => ?_, fun hmiss hlen => ?_, fun hmiss hlen => ?_, rfl,
    ?_, rfl⟩
  · simp [resolve_solicitation_app, hk, hs]
  · simp [resolve_solicitation_app, hk, hmiss, hlen]
  · simp [resolve_solicitation_app, hk, hmiss, hlen]
  · simp [resolve_solicitation_mcp, hk]

/-- C2 witness: the amended theorem applied at a concrete store and EPIN —
the fallback branch resolves through the 10-character base key. -/
theorem C2_resolution_witness :
    resolve_solicitation_app [solAbc] (some "AAA000BBB1999")
      = findSolicitationByNormEpin [solAbc] ⟨"AAA000BBB1999".data.take 10⟩ := by
  exact (C2_solicitation_resolution_amended [solAbc] "AAA000BBB1999"
    (by decide)).2.1 (by decide) (by decide)

/-! ## Claim C3 -/

/-- C3: evaluation of the partition-window logic.  The buffered window is as
claimed — start FY2022 and end FY2023 with max data year 2025 give exactly
FY2021–FY2025 (in both routes) — but with no start date at all
`contract_transactions` scans `range(max_fy - 5, max_fy + 1)` =
FY2020–FY2025, which is SIX fiscal years, not the five stated by the claim
and by the code's own comment and debug message, and
`contract_checkbook_details` scans only the single partition FY2025. -/
theorem C3_partition_window_eval :
    get_fy (some ⟨10, 15, 2021⟩) = some 2022 ∧
    get_fy (some ⟨3, 1, 2023⟩) = some 2023 ∧
    scan_window_transactions (some 2022) (some 2023) 2026
      = [2021, 2022, 2023, 2024, 2025] ∧
    scan_window_checkbook (some 2022) (some 2023) 2026
      = [2021, 2022, 2023, 2024, 2025] ∧
    scan_window_transactions none none 2026
      = [2020, 2021, 2022, 2023, 2024, 2025] ∧
    (scan_window_transactions none none 2026).length = 6 ∧
    scan_window_checkbook none none 2026 = [2025] := by
  decide

/-! ## Claim C4 -/

/-- C4: watermark safety of one `daily_update` run.  A failed header query
leaves everything untouched; a failed batch fetch anywhere in the loop aborts
the run with the persisted watermark (all three fields) unchanged; a failed
conversion leaves the watermark unchanged; and whenever the watermark is
saved, the save happens after the raw CSV write and the Parquet conversion,
with `last_record_downloaded` and `total_records` advanced to the remote
total and the chunk list extended. -/
theorem C4_watermark_safety {τ : Type} (p : Progress) (t : ℕ)
    (fetch : ℕ → ℕ → Option (List τ)) (chunkName : String) (convertOk : Bool) :
    (daily_update p none fetch chunkName convertOk = ⟨p, []⟩) ∧
    (download_batches fetch (p.last_record_downloaded + 1) t = none →
      daily_update p (some t) fetch chunkName convertOk = ⟨p, []⟩) ∧
    (convertOk = false →
      (daily_update p (some t) fetch chunkName convertOk).persisted = p) ∧
    (UpdateEvent.saveProgress ∈
        (daily_update p (some t) fetch chunkName convertOk).events →
      (daily_update p (some t) fetch chunkName convertOk).events
        = [.writeCsv, .writeParquet, .saveProgress] ∧
      (daily_update p (some t) fetch chunkName convertOk).persisted.last_record_downloaded
        = t ∧
      (daily_update p (some t) fetch chunkName convertOk).persisted.total_records = t ∧
      (daily_update p (some t) fetch chunkName convertOk).persisted.chunks_completed
        = p.chunks_completed ++ [chunkName]) := by
  refine ⟨rfl, fun h => ?_, fun hc => ?_, fun hs => ?_⟩
  · unfold daily_update
    simp only []
    by_cases hle : t ≤ p.last_record_downloaded
    · simp [hle]
    · simp [hle, h]
  · subst hc
    unfold daily_update
    simp only []
    by_cases hle : t ≤ p.last_record_downloaded
    · simp [hle]
    · cases hloop : download_batches fetch (p.last_record_downloaded + 1) t <;>
        simp [hle, hloop]
  · revert hs
    unfold daily_update
    simp only []
    by_cases hle : t ≤ p.last_record_downloaded
    · simp [hle]
    · cases hloop : download_batches fetch (p.last_record_downloaded + 1) t
      · simp [hle, hloop]
      · cases convertOk <;> simp [hle, hloop]

/-- C4 witness: the theorem applied at a concrete run whose very first batch
fetch returns non-200 — the persisted watermark is exactly the pre-run
value. -/
theorem C4_watermark_witness :
    daily_update (⟨0, 0, []⟩ : Progress) (some 5)
      (fun _ _ => (none : Option (List Unit))) "update_chunk.csv" true
      = ⟨⟨0, 0, []⟩, []⟩ := by
  exact (C4_watermark_safety ⟨0, 0, []⟩ 5 (fun _ _ => none) "update_chunk.csv"
    true).2.1 (by simp [download_batches])

/-! ## Claim C6 -/

/-- A key is present in the vendor dict exactly when some vendor's canonical
name equals it (fold-generalized). -/
lemma vendorMapAux_ne_none (vs : List VendorRow)
    (init : String → Option (Option String)) (k : String) :
    (vs.foldl
      (fun m v => fun k' =>
        if k' = clean_name v.name then some v.passport_supplier_id else m k')
      init) k ≠ none ↔
      (∃ v ∈ vs, clean_name v.name = k) ∨ init k ≠ none := by
  induction vs generalizing init with
  | nil => simp
  | cons v rest ih =>
    simp only [List.foldl_cons]
    rw [ih]
    by_cases hk : k = clean_name v.name
    · simp [hk]
    · have hk' : ¬ clean_name v.name = k := fun h => hk h.symm
      simp [hk, hk']

/-- A successful vendor-dict lookup returns the id of a vendor whose
canonical name is the key (fold-generalized). -/
lemma vendorMapAux_eq_some (vs : List VendorRow)
    (init : String → Option (Option String)) (k : String) (vid : Option String)
    (h : (vs.foldl
      (fun m v => fun k' =>
        if k' = clean_name v.name then some v.passport_supplier_id else m k')
      init) k = some vid) :
    (∃ v ∈ vs, clean_name v.name = k ∧ v.passport_supplier_id = vid) ∨
      init k = some vid := by
  induction vs generalizing init with
  | nil => simpa using h
  | cons v rest ih =>
    simp only [List.foldl_cons] at h
    rcases ih _ h with ⟨v', hv', hname, hid⟩ | hinit
    · exact Or.inl ⟨v', List.mem_cons_of_mem _ hv', hname, hid⟩
    · by_cases hk : k = clean_name v.name
      · rw [if_pos hk] at hinit
        exact Or.inl ⟨v, List.mem_cons_self _ _, hk.symm, Option.some.inj hinit⟩
      · rw [if_neg hk] at hinit
        exact Or.inr hinit

/-- C6 counterexample: the registrant `"Zeta LLC"` matches no vendor, and the
matcher leaves its confidence UNSET (`NULL`) — the `match_score` column is
never written for a miss, so it is not the `0.0` the claim states. -/
theorem C6_counterexample :
    match_entities_to_vendors [vendorAcme] [mocsZeta] = [mocsZeta] ∧
    mocsZeta.match_score = none ∧
    ¬ mocsZeta.match_score = some 0 := by
  decide

/-- C6 (amended): one pass over the registrant rows (fresh from the load, so
match columns `NULL`): every registrant whose canonical organization name
exactly equals some vendor's canonical name is linked to such a vendor's id
with confidence exactly 1.0; every other registrant stays unmatched with its
confidence left UNSET (`NULL`, not 0.0); no partial-credit score is ever
produced. -/
theorem C6_entity_matcher_amended (vendors : List VendorRow)
    (rows : List MocsEntityRow)
    (hfresh : ∀ r ∈ rows, r.matched_vendor_id = none ∧ r.match_score = none) :
    ∀ r' ∈ match_entities_to_vendors vendors rows,
      ((∃ v ∈ vendors, clean_name v.name = r'.normalized_name ∧
          v.passport_supplier_id = r'.matched_vendor_id) ∧
        r'.match_score = some 1) ∨
      (r'.matched_vendor_id = none ∧ r'.match_score = none ∧
        ¬ ∃ v ∈ vendors, clean_name v.name = r'.normalized_name) := by
  intro r' hr'
  unfold match_entities_to_vendors at hr'
  simp only [List.mem_map] at hr'
  obtain ⟨r, hr, rfl⟩ := hr'
  cases hm : vendor_map vendors r.normalized_name with
  | none =>
    simp only [hm]
    right
    refine ⟨(hfresh r hr).1, (hfresh r hr).2, fun hex => ?_⟩
    have h1 := (vendorMapAux_ne_none vendors (fun _ => none)
      r.normalized_name).mpr (Or.inl hex)
    exact h1 hm
  | some vid =>
    simp only [hm]
    left
    have h2 := vendorMapAux_eq_some vendors (fun _ => none)
      r.normalized_name vid hm
    rcases h2 with ⟨v, hv, hname, hid⟩ | hbad
    · exact ⟨⟨v, hv, hname, hid⟩, trivial⟩
    · exact absurd hbad (by simp)

/-- C6 witness: the amended theorem applied to the concrete matching
registrant — it is linked to `"V1"` with confidence 1.0. -/
theorem C6_matcher_witness :
    ((∃ v ∈ [vendorAcme], clean_name v.name = mocsAcmeLinked.normalized_name ∧
        v.passport_supplier_id = mocsAcmeLinked.matched_vendor_id) ∧
      mocsAcmeLinked.match_score = some 1) ∨
    (mocsAcmeLinked.matched_vendor_id = none ∧
      mocsAcmeLinked.match_score = none ∧
      ¬ ∃ v ∈ [vendorAcme], clean_name v.name = mocsAcmeLinked.normalized_name) := by
  exact C6_entity_matcher_amended [vendorAcme] [mocsAcme] (by decide)
    mocsAcmeLinked (by decide)

/-! ## Claim C1 -/

/-- Key presence survives a single insert-or-ignore. -/
lemma any_key_insertOrIgnorePK {α : Type} (key : α → Option String) (t : List α)
    (x : α) (k : String) (h : t.any (fun r => key r = some k) = true) :
    (insertOrIgnorePK key t x).any (fun r => key r = some k) = true := by
  unfold insertOrIgnorePK
  cases hkx : key x with
  | none =>
    rw [List.any_append, h, Bool.true_or]
  | some k' =>
    simp only []
    split
    · exact h
    · rw [List.any_append, h, Bool.true_or]

/-- Inserting a keyed row makes its key present. -/
lemma any_key_insertOrIgnorePK_self {α : Type} (key : α → Option String)
    (t : List α) (x : α) (k : String) (hx : key x = some k) :
    (insertOrIgnorePK key t x).any (fun r => key r = some k) = true := by
  unfold insertOrIgnorePK
  simp only [hx]
  split
  · next hpres => exact hpres
  · rw [List.any_append]
    have hone : [x].any (fun r => key r = some k) = true := by simp [hx]
    rw [hone, Bool.or_true]

/-- Key presence survives a whole batch insert. -/
lemma any_key_insertManyOrIgnorePK {α : Type} (key : α → Option String)
    (t : List α) (xs : List α) (k : String)
    (h : t.any (fun r => key r = some k) = true) :
    (insertManyOrIgnorePK key t xs).any (fun r => key r = some k) = true := by
  induction xs generalizing t with
  | nil => exact h
  | cons y rest ih =>
    rw [insertManyOrIgnorePK, List.foldl_cons]
    exact ih (insertOrIgnorePK key t y) (any_key_insertOrIgnorePK key t y k h)

/-- After a batch insert, the key of every keyed batch row is present. -/
lemma any_key_insertManyOrIgnorePK_of_mem {α : Type} (key : α → Option String)
    (xs : List α) (x : α) (k : String) (hk : key x = some k) :
    ∀ t : List α, x ∈ xs →
      (insertManyOrIgnorePK key t xs).any (fun r => key r = some k) = true := by
  induction xs with
  | nil => intro t hx; cases hx
  | cons y rest ih =>
    intro t hx
    rw [insertManyOrIgnorePK, List.foldl_cons]
    rcases List.mem_cons.mp hx with rfl | hmem
    · exact any_key_insertManyOrIgnorePK key _ rest k
        (any_key_insertOrIgnorePK_self key t x k hk)
    · exact ih (insertOrIgnorePK key t y) hmem

/-- A batch insert of rows whose keys are all already present is a no-op. -/
lemma insertManyOrIgnorePK_of_present {α : Type} (key : α → Option String)
    (T : List α) (xs : List α)
    (h : ∀ x ∈ xs, ∃ k, key x = some k ∧ T.any (fun r => key r = some k) = true) :
    insertManyOrIgnorePK key T xs = T := by
  induction xs with
  | nil => rfl
  | cons x rest ih =>
    obtain ⟨k, hk, hpres⟩ := h x (List.mem_cons_self _ _)
    have hstep : insertOrIgnorePK key T x = T := by
      unfold insertOrIgnorePK
      simp only [hk]
      rw [if_pos hpres]
    rw [insertManyOrIgnorePK, List.foldl_cons, hstep]
    exact ih (fun y hy => h y (List.mem_cons_of_mem _ hy))

/-- Re-running a keyed batch insert of rows with non-`NULL` keys changes
nothing. -/
lemma insertManyOrIgnorePK_twice {α : Type} (key : α → Option String)
    (t : List α) (xs : List α) (hkeys : ∀ x ∈ xs, key x ≠ none) :
    insertManyOrIgnorePK key (insertManyOrIgnorePK key t xs) xs
      = insertManyOrIgnorePK key t xs := by
  apply insertManyOrIgnorePK_of_present
  intro x hx
  match hk : key x with
  | none => exact absurd hk (hkeys x hx)
  | some k =>
    exact ⟨k, rfl, any_key_insertManyOrIgnorePK_of_mem key xs x k hk t hx⟩

/-- C1 counterexample: loading the same one-row contracts extract twice
leaves TWO rows, not one — `INSERT OR IGNORE INTO contracts` has no unique
constraint to trigger — and the same happens for the registrant-entities
extract, which is loaded with a plain `INSERT`. -/
theorem C1_counterexample :
    (load_contracts (load_contracts [] [contractBlank]) [contractBlank]).length
      = 2 ∧
    (load_contracts [] [contractBlank]).length = 1 ∧
    (load_doing_business_entities
      (load_doing_business_entities [] [mocsEntityOfCsv (some "X") none none none])
      [mocsEntityOfCsv (some "X") none none none]).length = 2 ∧
    (load_doing_business_entities []
      [mocsEntityOfCsv (some "X") none none none]).length = 1 := by
  decide

/-- C1 (amended): a load never raises on duplicates (every batch write is
total), and re-loading the same extract is idempotent exactly for the tables
that declare a natural key: `vendors` and `solicitations` re-loads are
no-ops whenever every row carries a non-`NULL` key, while re-loading the
`contracts` extract (insert-or-ignore without any unique constraint) and the
registrant entities/people extracts (plain inserts) doubles their row
counts. -/
theorem C1_load_idempotency_amended
    (vext : List VendorRow) (hv : ∀ r ∈ vext, r.passport_supplier_id ≠ none)
    (sext : List SolicitationRow) (hs : ∀ r ∈ sext, r.epin ≠ none)
    (cext : List ContractRow) (ment : List MocsEntityRow)
    (mppl : List MocsPersonRow) :
    load_vendors (load_vendors [] vext) vext = load_vendors [] vext ∧
    load_solicitations (load_solicitations [] sext) sext
      = load_solicitations [] sext ∧
    (load_contracts (load_contracts [] cext) cext).length = 2 * cext.length ∧
    (load_doing_business_entities (load_doing_business_entities [] ment) ment).length
      = 2 * ment.length ∧
    (load_doing_business_people (load_doing_business_people [] mppl) mppl).length
      = 2 * mppl.length := by
  refine ⟨?_, ?_, ?_, ?_, ?_⟩
  · exact insertManyOrIgnorePK_twice _ [] vext hv
  · apply insertManyOrIgnorePK_twice
    intro x hx
    obtain ⟨r, hr, rfl⟩ := List.mem_map.mp hx
    exact hs r hr
  · simp [load_contracts]
    omega
  · simp [load_doing_business_entities]
    omega
  · simp [load_doing_business_people]
    omega

/-- C1 witness: the amended theorem applied to concrete one-row extracts. -/
theorem C1_load_witness :
    load_vendors (load_vendors [] [vendorSimple]) [vendorSimple]
        = load_vendors [] [vendorSimple] ∧
    load_solicitations (load_solicitations [] [solSimple]) [solSimple]
        = load_solicitations [] [solSimple] ∧
    (load_contracts (load_contracts [] [contractBlank]) [contractBlank]).length
        = 2 * [contractBlank].length ∧
    (load_doing_business_entities (load_doing_business_entities [] []) []).length
        = 2 * ([] : List MocsEntityRow).length ∧
    (load_doing_business_people (load_doing_business_people [] []) []).length
        = 2 * ([] : List MocsPersonRow).length := by
  exact C1_load_idempotency_amended [vendorSimple] (by decide) [solSimple]
    (by decide) [contractBlank] [] []

end NycContracting
